import Mathlib

/-!
Shallow embedding of the project-management plugin's indexing engine
(the ProjectCache class: reindex, getTask, updateTask, moveTaskToStatus)
together with proofs about the claims of the specification.

Strings are modelled as lists of unicode scalar characters (`Str`).
Each JavaScript regular-expression test used by the source is embedded as
an executable function on `Str` with the exact backtracking semantics of
the concrete pattern (worked out pattern by pattern; the patterns involved
are simple enough that greedy matching plus the token classes determine
the outcome uniquely).
-/

namespace PMCache

/-- Strings as lists of characters. -/
abbrev Str := List Char

/-- JavaScript `\s` class restricted to the characters that can occur in the
documents we model: space, tab, LF, CR, VT, FF and NBSP (U+00A0). -/
def isWs (c : Char) : Bool :=
  c = ' ' || c = '\t' || c = '\n' || c = '\r' || c = '\x0b' || c = '\x0c' || c = '\u00A0'

/-- Character class of the inline-annotation key regex `[A-Za-z0-9_-]`. -/
def isKeyChar (c : Char) : Bool :=
  (('A' ≤ c && c ≤ 'Z') || ('a' ≤ c && c ≤ 'z') || c.isDigit || c = '_' || c = '-')

/-- JavaScript `\w` class `[A-Za-z0-9_]` (no hyphen). -/
def isWChar (c : Char) : Bool :=
  (('A' ≤ c && c ≤ 'Z') || ('a' ≤ c && c ≤ 'z') || c.isDigit || c = '_')

/-- `String.prototype.toLowerCase` on the ASCII range (the ids and keys the
engine lowercases are ASCII). -/
def jsToLower (s : Str) : Str := s.map Char.toLower

/-- `String.prototype.trim` (strips the `isWs` characters at both ends). -/
def jsTrim (s : Str) : Str :=
  ((s.dropWhile isWs).reverse.dropWhile isWs).reverse

/-- `.replace(/ /g, " ")`: non-breaking spaces become plain spaces. -/
def replaceNbsp (s : Str) : Str :=
  s.map fun c => if c = '\u00A0' then ' ' else c

/-- `String.prototype.split(sep)` for a one-character separator. -/
def splitOnChar (sep : Char) : Str → List Str
  | [] => [[]]
  | c :: cs =>
    let r := splitOnChar sep cs
    if c = sep then [] :: r
    else
      match r with
      | h :: t => (c :: h) :: t
      | [] => [[c]]

/-- `text.split("\n")`. -/
def splitLines (s : Str) : List Str := splitOnChar '\n' s

/-- `lines.join("\n")`. -/
def joinLines (ls : List Str) : Str :=
  match ls with
  | [] => []
  | [l] => l
  | l :: rest => l ++ '\n' :: joinLines rest

/-- The ISO date test `^\d{4}-\d{2}-\d{2}$` (anchored at both ends). -/
def isIsoDate (s : Str) : Bool :=
  match s with
  | [a, b, c, d, e, f, g, h, i, j] =>
    a.isDigit && b.isDigit && c.isDigit && d.isDigit && e = '-' &&
    f.isDigit && g.isDigit && h = '-' && i.isDigit && j.isDigit
  | _ => false

/-- Helper of the checkbox search: does `cs` (the text right after a `-`)
continue with `\s*\[g\]` for some `g` in `allowed`?  Since `[` is not a
whitespace character, the greedy `\s*` is forced to stop at the first
non-whitespace character, so the test is deterministic. -/
def boxAfterDash (allowed : List Char) (cs : Str) : Bool :=
  match cs.dropWhile isWs with
  | '[' :: g :: ']' :: _ => allowed.contains g
  | _ => false

/-- The unanchored search `-\s*\[<class>\]` (used by the status regexes and,
after the leading pipe, by the table-task-row patterns): true iff some
occurrence of `-` is followed by optional whitespace and a bracketed glyph
from `allowed`. -/
def hasDashBox (allowed : List Char) : Str → Bool
  | [] => false
  | c :: cs => (c = '-' && boxAfterDash allowed cs) || hasDashBox allowed cs

/-- Glyph class of the structured-walk table-row test `[ xX/\-]`. -/
def structGlyphs : List Char := [' ', 'x', 'X', '/', '-']

/-- Glyph class of the fallback-walk table-row test `[ xX/\\-]` (the source
escapes the backslash inside the class, so a literal backslash is accepted
there as well). -/
def fbGlyphs : List Char := [' ', 'x', 'X', '/', '\\', '-']

/-- `/^\s*\|.*-\s*\[<class>\]/.test(line)`: optional leading whitespace, a
pipe, then anywhere later a checkbox glyph from `allowed`. -/
def testTableTask (allowed : List Char) (line : Str) : Bool :=
  match line.dropWhile isWs with
  | '|' :: rest => hasDashBox allowed rest
  | _ => false

/-- Task status, derived from the checkbox glyph. -/
inductive Status where
  | notStarted
  | inProgress
  | onHold
  | done
deriving DecidableEq, Repr

/-- The status derivation used verbatim by both the structured-item walk and
the fallback row walk: `[x]`/`[X]` → done, `[/]` → in-progress, `[-]` →
on-hold, anything else → not-started. -/
def statusFromLine (line : Str) : Status :=
  if hasDashBox ['x', 'X'] line then .done
  else if hasDashBox ['/'] line then .inProgress
  else if hasDashBox ['-'] line then .onHold
  else .notStarted

/-- `isChecked` derivation: only `-\s*\[[xX]\]` counts as checked (the
host's `item.task` field is a string, so `item.task?.checked` is always
`undefined` and contributes `false` to the source's disjunction). -/
def checkedFromLine (line : Str) : Bool :=
  hasDashBox ['x', 'X'] line

/-- Property bags (`Record<string, string>`) and the insertion-ordered maps
of the cache, modelled as association lists with JavaScript semantics:
setting an existing key updates it in place (its position is kept),
setting a fresh key appends it. -/
def alistSet {α : Type} (m : List (Str × α)) (k : Str) (v : α) : List (Str × α) :=
  if m.any fun kv => kv.1 == k then
    m.map fun kv => if kv.1 == k then (k, v) else kv
  else m ++ [(k, v)]

/-- Key lookup in an association list (JS property read / `Map.get`). -/
def alistGet {α : Type} (m : List (Str × α)) (k : Str) : Option α :=
  (m.find? fun kv => kv.1 == k).map fun kv => kv.2

/-- A task's merged annotation bag. -/
abbrev Props := List (Str × Str)

/-- `matchAll` for the inline-annotation regex
`/([A-Za-z0-9_-]+)::\s*([^|\n]+)/g`, returning the raw (key, value)
captures in match order.  The engine walks left to right; a key run is
maximal (a shorter run would be followed by a key character, not by `::`),
the greedy `\s*` stops at the first non-whitespace character, and the
greedy `[^|\n]+` then runs to the next pipe, newline or the end.  When
everything after `::` up to the pipe/end is whitespace, `\s*` backtracks
one character so that `[^|\n]+` can match that single whitespace char. -/
def kvScanF : Nat → Str → List (Str × Str)
  | 0, _ => []
  | _, [] => []
  | fuel + 1, c :: cs =>
    if isKeyChar c then
      let key := (c :: cs).takeWhile isKeyChar
      let rest := (c :: cs).dropWhile isKeyChar
      match rest with
      | ':' :: ':' :: r2 =>
        let ws := r2.takeWhile isWs
        let body := r2.dropWhile isWs
        match body with
        | [] =>
          match ws.getLast? with
          | some w => [(key, [w])]
          | none => kvScanF fuel rest
        | b :: _ =>
          if b = '|' || b = '\n' then
            match ws.getLast? with
            | some w => (key, [w]) :: kvScanF fuel body
            | none => kvScanF fuel rest
          else
            let value := body.takeWhile fun x => !(x = '|' || x = '\n')
            let after := body.dropWhile fun x => !(x = '|' || x = '\n')
            (key, value) :: kvScanF fuel after
      | _ => kvScanF fuel rest
    else kvScanF fuel cs

/-- `kvScan` with enough fuel: every recursive step of `kvScanF` strictly
shortens the scanned list, so `s.length` steps always finish the scan. -/
def kvScan (s : Str) : List (Str × Str) := kvScanF s.length s

/-- Fold the annotation captures into a property bag:
`props[k.toLowerCase()] = v.trim()`, later matches overwriting earlier. -/
def applyKvMatches (p : Props) (ms : List (Str × Str)) : Props :=
  ms.foldl (fun p kv => alistSet p (jsToLower kv.1) (jsTrim kv.2)) p

/-- The five emoji glyphs of the Tasks-plugin date syntax. -/
def emojiIcons : List Char := ['🔜', '⏳', '📅', '✅', '🛫']

/-- The whitespace class `[  \t\r\n]` tolerated between icon and date. -/
def isEmojiWs (c : Char) : Bool :=
  c = ' ' || c = ' ' || c = '\t' || c = '\r' || c = '\n'

/-- Drop an optional variation selector `️`. -/
def stripFe0f : Str → Str
  | c :: r => if c = '️' then r else c :: r
  | [] => []

/-- After an icon: try `️?[  \t\r\n]*([0-9]{4}-[0-9]{2}-[0-9]{2})`
and return the captured date. -/
def dateAfterIcon (cs : Str) : Option Str :=
  match (stripFe0f cs).dropWhile isEmojiWs with
  | a :: b :: c :: d :: '-' :: e :: f :: '-' :: g :: h :: _ =>
    if a.isDigit && b.isDigit && c.isDigit && d.isDigit &&
       e.isDigit && f.isDigit && g.isDigit && h.isDigit
    then some [a, b, c, d, '-', e, f, '-', g, h] else none
  | _ => none

/-- The unconsumed remainder after a successful icon-date match (the ten
date characters follow the optional selector and the whitespace run). -/
def afterIconRest (cs : Str) : Str :=
  ((stripFe0f cs).dropWhile isEmojiWs).drop 10

def emojiScanF : Nat → Str → List (Char × Str)
  | 0, _ => []
  | _, [] => []
  | fuel + 1, c :: cs =>
    if emojiIcons.contains c then
      match dateAfterIcon cs with
      | some d => (c, d) :: emojiScanF fuel (afterIconRest cs)
      | none => emojiScanF fuel cs
    else emojiScanF fuel cs

/-- All matches of the emoji-date regex, in match order (each step of
`emojiScanF` strictly shortens its input, so `s.length` steps always
finish the scan). -/
def emojiScan (s : Str) : List (Char × Str) := emojiScanF s.length s

/-- One emoji match merged into the bag: 🔜/⏳/🛫 set `start`, 📅 sets
`due`, ✅ sets `done` (the captured date is `trim`ed, a no-op on the ten
captured characters, kept for fidelity with `date.trim()`). -/
def emojiApply (p : Props) (m : Char × Str) : Props :=
  let d := jsTrim m.2
  if m.1 = '🔜' || m.1 = '⏳' || m.1 = '🛫' then alistSet p ("start".data) d
  else if m.1 = '📅' then alistSet p ("due".data) d
  else if m.1 = '✅' then alistSet p ("done".data) d
  else p

/-- `cells.shift()` when the boundary pipe produced a leading empty cell. -/
def shiftEmpty : List Str → List Str
  | [] :: rest => rest
  | other => other

/-- `cells.pop()` when the boundary pipe produced a trailing empty cell. -/
def popEmpty (cells : List Str) : List Str :=
  if cells.getLast? = some [] then cells.dropLast else cells

/-- Cell split used by both task walks:
`line.split("|").map(c => c.replace(/ /g, " ").trim())` followed by
the shift/pop of boundary empties. -/
def rowCells (line : Str) : List Str :=
  popEmpty (shiftEmpty ((splitOnChar '|' line).map fun c => jsTrim (replaceNbsp c)))

/-- `/^[Ee]-\d+$/` (anchored). -/
def matchEpicRef (s : Str) : Bool :=
  match s with
  | c :: '-' :: rest => (c = 'E' || c = 'e') && !rest.isEmpty && rest.all Char.isDigit
  | _ => false

/-- `/^[Ss]-\d+$/` (anchored). -/
def matchStoryRef (s : Str) : Bool :=
  match s with
  | c :: '-' :: rest => (c = 'S' || c = 's') && !rest.isEmpty && rest.all Char.isDigit
  | _ => false

/-- The closed priority vocabulary, matched case-insensitively. -/
def priorityVocab : List Str :=
  ["critical", "crit", "c", "p0", "highest", "high", "h", "1", "p1",
   "medium", "med", "m", "2", "p2", "low", "l", "3", "p3"].map String.data

/-- Heuristics stage 1: epic parent reference from `cells[1]`. -/
def heurEpic (cells : List Str) (p : Props) : Props :=
  match cells.get? 1 with
  | some c1 =>
    if !c1.isEmpty && matchEpicRef (jsTrim c1) then alistSet p ("epic".data) (jsTrim c1)
    else p
  | none => p

/-- Heuristics stage 2: story parent reference from `cells[1]`. -/
def heurStory (cells : List Str) (p : Props) : Props :=
  match cells.get? 1 with
  | some c1 =>
    if !c1.isEmpty && matchStoryRef (jsTrim c1) then alistSet p ("story".data) (jsTrim c1)
    else p
  | none => p

/-- Heuristics stage 3: the first cell from the priority vocabulary. -/
def heurPriority (cells : List Str) (p : Props) : Props :=
  match cells.find? (fun c => priorityVocab.contains (jsTrim (jsToLower c))) with
  | some c => alistSet p ("priority".data) (jsTrim c)
  | none => p

/-- Heuristics stage 4: walking right to left from the last cell down to
index 2, the first nonempty non-date cell becomes the description. -/
def heurDescription (cells : List Str) (p : Props) : Props :=
  match (cells.drop 2).reverse.find? (fun c => !c.isEmpty && !isIsoDate c) with
  | some cand => alistSet p ("description".data) cand
  | none => p

/-- The table-cell heuristics block shared verbatim by the structured walk
and the fallback walk, in source order. -/
def applyCellHeuristics (cells : List Str) (p0 : Props) : Props :=
  heurDescription cells (heurPriority cells (heurStory cells (heurEpic cells p0)))

def splitRunsF (p : Char → Bool) : Nat → Str → List Str
  | 0, _ => [[]]
  | _, [] => [[]]
  | fuel + 1, c :: cs =>
    if p c then [] :: splitRunsF p fuel (cs.dropWhile p)
    else
      match splitRunsF p fuel cs with
      | h :: t => (c :: h) :: t
      | [] => [[c]]

/-- `value.split(/[, ]+/)`: split on maximal nonempty runs of separator
characters (each step of `splitRunsF` strictly shortens its input, so
`s.length` steps always finish). -/
def splitRuns (p : Char → Bool) (s : Str) : List Str := splitRunsF p s.length s

/-- `d.replace(/^\^/, "")`: strip one leading caret. -/
def stripCaret : Str → Str
  | '^' :: r => r
  | s => s

/-- The dependency list: split the raw `depends` value on comma/space runs,
strip a leading caret, trim, lowercase, drop empties. -/
def parseDepends (v : Option Str) : List Str :=
  match v with
  | none => []
  | some s =>
    ((splitRuns (fun c => c = ',' || c = ' ') s).map fun d =>
      jsToLower (jsTrim (stripCaret d))).filter fun x => !x.isEmpty

example : kvScan ("- [ ] T due:: 2025-07-31 | x".data) =
    [("due".data, "2025-07-31 ".data)] := by decide
example : statusFromLine ("- [x] done it".data) = .done := by decide
example : statusFromLine ("- [/] doing".data) = .inProgress := by decide
example : statusFromLine ("- [-] hold".data) = .onHold := by decide
example : statusFromLine ("- [ ] todo".data) = .notStarted := by decide
example : testTableTask fbGlyphs ("  | a | - [ ] b |".data) = true := by decide
example : testTableTask fbGlyphs ("- [ ] b".data) = false := by decide
example : isIsoDate ("2025-06-01".data) = true := by decide
example : isIsoDate ("2025-6-01".data) = false := by decide
example : splitOnChar '|' ("|a|b|".data) = [[], ['a'], ['b'], []] := by decide

/-! ### Text stripping -/

def replaceWsNlF : Nat → Str → Str
  | 0, s => s
  | _, [] => []
  | fuel + 1, c :: cs =>
    if isWs c then
      let run := (c :: cs).takeWhile isWs
      let rest := (c :: cs).dropWhile isWs
      (if run.contains '\n' then
        '\n' :: (run.reverse.takeWhile fun x => !(x = '\n')).reverse
       else run) ++ replaceWsNlF fuel rest
    else c :: replaceWsNlF fuel cs

/-- `.replace(/\s+\n/g, "\n")`: inside each maximal whitespace run that
contains a newline, everything up to the run's last newline collapses to a
single newline (a greedy `\s+` backtracks to the last `\n` of the run; a
run whose only newline is its first character is not matched, but the
rewrite below agrees with the regex on that case as well since the output
is unchanged there). -/
def replaceWsNl (s : Str) : Str := replaceWsNlF s.length s

/-- First stage of the structured-path text strip,
`.replace(/^\s*\|?\s*/g, "")` (the `^` anchor fires only at the start). -/
def stripLeadPipeWs (s : Str) : Str :=
  match s.dropWhile isWs with
  | '|' :: r => r.dropWhile isWs
  | t => t

/-- Second stage, `.replace(/^\s*-\s*\[[\sxX/\-]\]\s*/, "")`: drop a
leading checkbox marker (its glyph may be any whitespace, x, X, / or -). -/
def stripLeadCheckbox (s : Str) : Str :=
  match s.dropWhile isWs with
  | '-' :: r =>
    match r.dropWhile isWs with
    | '[' :: g :: ']' :: r3 =>
      if isWs g || g = 'x' || g = 'X' || g = '/' || g = '-' then r3.dropWhile isWs else s
    | _ => s
  | _ => s

def stripInlinePropsF : Nat → Str → Str
  | 0, s => s
  | _, [] => []
  | fuel + 1, c :: cs =>
    if isWChar c then
      let run := (c :: cs).takeWhile isWChar
      let rest := (c :: cs).dropWhile isWChar
      match rest with
      | ':' :: ':' :: r2 =>
        let body := r2.dropWhile isWs
        match body with
        | [] => run ++ stripInlinePropsF fuel rest
        | _ :: _ => stripInlinePropsF fuel (body.dropWhile fun x => !(isWs x))
      | _ => run ++ stripInlinePropsF fuel rest
    else c :: stripInlinePropsF fuel cs

/-- Third stage, `.replace(/(\w+)::\s*[^\s]+/g, "")`: delete every word
run followed by `::`, optional whitespace and one nonempty non-whitespace
run (when only whitespace follows the `::` there is no match, because
`[^\s]+` cannot consume whitespace even after backtracking). -/
def stripInlineProps (s : Str) : Str := stripInlinePropsF s.length s

/-- The structured-walk display text: strip leading pipe/whitespace, the
leading checkbox, all inline `key:: value` tokens, then trim. -/
def strippedStructured (rawBlock : Str) : Str :=
  jsTrim (stripInlineProps (stripLeadCheckbox (stripLeadPipeWs rawBlock)))

/-- Search used by the fallback strip's lazy `.*?`: the earliest position
whose text continues with `-\s*\[[\sxX/\-]\]`, returning the remainder
after the checkbox and its trailing `\s*`. -/
def findDashBoxEnd : Str → Option Str
  | [] => none
  | c :: cs =>
    if c = '-' then
      match cs.dropWhile isWs with
      | '[' :: g :: ']' :: r3 =>
        if isWs g || g = 'x' || g = 'X' || g = '/' || g = '-' then some (r3.dropWhile isWs)
        else findDashBoxEnd cs
      | _ => findDashBoxEnd cs
    else findDashBoxEnd cs

/-- Fallback-path stage one, `.replace(/^\s*\|.*?-\s*\[[\sxX\/\-]\]\s*/, "")`:
from the start of the row up to and including the first checkbox marker. -/
def stripBulletLead (line : Str) : Str :=
  match line.dropWhile isWs with
  | '|' :: r =>
    match findDashBoxEnd r with
    | some rest => rest
    | none => line
  | _ => line

/-- Fallback-path stage two, `.replace(/\|.*/, "")`: drop everything from
the first remaining pipe on. -/
def dropFromPipe (s : Str) : Str := s.takeWhile fun c => !(c = '|')

def stripPropsPipeF : Nat → Str → Str
  | 0, s => s
  | _, [] => []
  | fuel + 1, c :: cs =>
    if isWChar c then
      let run := (c :: cs).takeWhile isWChar
      let rest := (c :: cs).dropWhile isWChar
      match rest with
      | ':' :: ':' :: r2 =>
        let body := r2.takeWhile fun x => !(x = '|')
        if body.isEmpty then run ++ stripPropsPipeF fuel rest
        else stripPropsPipeF fuel (r2.dropWhile fun x => !(x = '|'))
      | _ => run ++ stripPropsPipeF fuel rest
    else c :: stripPropsPipeF fuel cs

/-- Fallback-path stage three, `.replace(/(\w+)::\s*[^|]+/g, "")`: delete
every word run followed by `::` and at least one non-pipe character (the
combined `\s*[^|]+` simply consumes everything up to the next pipe or the
end, since `[^|]` also matches whitespace). -/
def stripPropsPipe (s : Str) : Str := stripPropsPipeF s.length s

/-- The fallback-walk display text. -/
def strippedFallback (line : Str) : Str :=
  jsTrim (stripPropsPipe (dropFromPipe (stripBulletLead line)))

example : strippedStructured ("- [ ] E-1 Build API".data) = "E-1 Build API".data := by decide
example : strippedFallback ("| S-1 | - [x] Design | due:: 2025-01-01 |".data) =
    "Design".data := by decide

/-! ### Data model -/

/-- One indexed task (`TaskItem` in the source; the `file : TFile` handle
is represented by the vault path it denotes). -/
structure TaskItem where
  id : Str
  filePath : Str
  line : Nat
  text : Str
  props : Props
  checked : Bool
  depends : List Str
  status : Status
deriving DecidableEq, Repr

/-- One milestone row (`desc` is the empty string when the optional cell
is missing, mirroring `cells[4] ?? ""`). -/
structure Milestone where
  id : Str
  title : Str
  date : Str
  desc : Str
  file : Str
deriving DecidableEq, Repr

/-- Aggregated entry for one project note.  `percentComplete` is the exact
rational value of the float `done / tasks.length` (the division is exact
for the small counts involved; no claim inspects its rounding). -/
structure ProjectEntry where
  filePath : Str
  tasks : List TaskItem
  percentComplete : ℚ
  nextDue : Option Str
deriving DecidableEq, Repr

/-- A host-provided structured list item (`ListItemCache`): block position,
the checkbox character of `item.task` (absent on non-task items), the
optional block id, and the host `attributes` array read defensively by the
source (the typed Obsidian metadata has no such field, so it is empty for
the real host; we keep it as an input). -/
structure ListItemIn where
  startLine : Nat
  endLine : Option Nat
  task : Option Str
  blockId : Option Str
  attributes : List (Str × Str)
deriving DecidableEq, Repr

/-- One markdown file as the engine sees it: vault path, current text and
the host metadata (the truthy front-matter keys, `none` when the file has
no metadata/front-matter, plus the structured list items). -/
structure VaultDoc where
  path : Str
  text : Str
  fmTruthyKeys : Option (List Str)
  listItems : List ListItemIn
deriving DecidableEq, Repr

/-- The settings consulted by the engine. -/
structure PmSettingsM where
  projectFlagProperty : Str
  statusProperty : Str
  dueProperty : Str

/-- The cache's mutable state: three insertion-ordered collections plus
the registered listeners (opaque tokens; invoking a callback does not
change the cache state, so `notify` needs no model beyond preserving the
set). -/
structure CacheState where
  projects : List (Str × ProjectEntry)
  tasks : List (Str × TaskItem)
  milestones : List Milestone
  listeners : List Nat
deriving DecidableEq, Repr

/-- `makeTaskKey`: vault path and id, both lowercased, joined by `::`. -/
def makeTaskKey (filePath id : Str) : Str :=
  jsToLower filePath ++ ':' :: ':' :: jsToLower id

/-- JavaScript truthiness of an optional string (`undefined` and the empty
string are falsy). -/
def jsTruthyOptStr : Option Str → Bool
  | none => false
  | some s => !s.isEmpty

/-- Decimal rendering of a line number for the synthetic-id templates. -/
def natStr (n : Nat) : Str := (Nat.repr n).data

/-! ### Task assembly -/

/-- The structured-item walk's task assembly for one host list item.
Returns `none` when the item is neither a host-flagged task nor a
table-task row.  Mirrors the source step by step:
host `attributes`, then the inline `key::` pass over the item's first
line only (`rowText`), then the table-cell heuristics when that line
contains a pipe, then the emoji-date pass over the whitespace-normalized
multi-line block, then depends/status/checked/text/id.
`item.task?.checked` is `undefined` on the host's string-valued `task`
field, so `isChecked` reduces to the `[xX]` glyph test. -/
def rawBlockOf (fileLines : List Str) (item : ListItemIn) : Str :=
  joinLines ((fileLines.drop item.startLine).take
    (item.endLine.getD item.startLine + 1 - item.startLine))

/-- The multi-line block after whitespace normalization (NBSP to space,
then `\s+\n` collapsed). -/
def normBlockOf (fileLines : List Str) (item : ListItemIn) : Str :=
  replaceWsNl (replaceNbsp (rawBlockOf fileLines item))

/-- Pass 1 of the props collection: the host `attributes` array folded
into a fresh bag (`props[attr.key.toLowerCase()] = String(attr.value)`). -/
def attrProps (item : ListItemIn) : Props :=
  item.attributes.foldl (fun p kv => alistSet p (jsToLower kv.1) kv.2) []

def buildStructuredTask (filePath : Str) (fileLines : List Str) (item : ListItemIn) :
    Option TaskItem :=
  let firstLineRaw := fileLines.getD item.startLine []
  let tableTaskMatch := testTableTask structGlyphs firstLineRaw
  if !jsTruthyOptStr item.task && !tableTaskMatch then none
  else
    let startIdx := item.startLine
    let rawBlock := normBlockOf fileLines item
    let props0 : Props := attrProps item
    let rowText := fileLines.getD startIdx []
    let props1 := applyKvMatches props0 (kvScan rowText)
    let props2 :=
      if rowText.contains '|' then applyCellHeuristics (rowCells rowText) props1 else props1
    let props3 := (emojiScan rawBlock).foldl emojiApply props2
    let deps := parseDepends (alistGet props3 ("depends".data))
    let stripped := strippedStructured rawBlock
    some
      { id := item.blockId.getD (filePath ++ '-' :: natStr item.startLine)
        filePath := filePath
        line := item.startLine
        text := if stripped.isEmpty then "(no text)".data else stripped
        props := props3
        checked := checkedFromLine firstLineRaw
        depends := deps
        status := statusFromLine firstLineRaw }

/-- The caret-suffix id pattern `/\^([A-Za-z0-9_-]+)\s*$/`: the leftmost
caret whose following word run reaches the end of the line modulo
trailing whitespace. -/
def caretSuffixId : Str → Option Str
  | [] => none
  | c :: cs =>
    if c = '^' then
      let run := cs.takeWhile isKeyChar
      let rest := cs.dropWhile isKeyChar
      if !run.isEmpty && rest.all isWs then some run else caretSuffixId cs
    else caretSuffixId cs

/-- The id-column pattern `/^\s*\|\s*([A-Za-z0-9_-]+)\s*\|/`: a first cell
consisting of a single word run. -/
def idCellOf (line : Str) : Option Str :=
  match line.dropWhile isWs with
  | '|' :: r =>
    let r2 := r.dropWhile isWs
    let run := r2.takeWhile isKeyChar
    let rest := r2.dropWhile isKeyChar
    if !run.isEmpty &&
        (match rest.dropWhile isWs with
         | '|' :: _ => true
         | _ => false)
    then some run else none
  | _ => none

/-- The fallback walk's task assembly for one raw table row (the caller
has already checked the row pattern and deduplicated by line index).
Id precedence: caret suffix, then id column, then the synthetic
`path-row-index`; the result is always lowercased on this path. -/
def buildFallbackTask (filePath : Str) (idx : Nat) (line : Str) : TaskItem :=
  let props0 := applyKvMatches [] (kvScan line)
  let props1 := if line.contains '|' then applyCellHeuristics (rowCells line) props0 else props0
  let deps := parseDepends (alistGet props1 ("depends".data))
  let stripped := strippedFallback line
  let id0 :=
    match caretSuffixId line with
    | some i => i
    | none =>
      match idCellOf line with
      | some i => i
      | none => filePath ++ "-row-".data ++ natStr idx
  { id := jsToLower id0
    filePath := filePath
    line := idx
    text := if stripped.isEmpty then "(no text)".data else stripped
    props := props1
    checked := checkedFromLine line
    depends := deps
    status := statusFromLine line }

/-! ### Milestone scan -/

/-- Does the line start (after optional whitespace) with a pipe? -/
def pipeStart (line : Str) : Bool :=
  match line.dropWhile isWs with
  | '|' :: _ => true
  | _ => false

/-- Case-insensitive prefix test against a lowercase needle. -/
def ciStartsWith : Str → Str → Bool
  | [], _ => true
  | _ :: _, [] => false
  | a :: w, b :: s => Char.toLower b = a && ciStartsWith w s

/-- `/\b<word>\b/i.test(line)` for a lowercase ASCII word: an occurrence
with non-word characters (or edges) on both sides. -/
def hasWordCIAux (w : Str) : Bool → Str → Bool
  | _, [] => false
  | prevWord, c :: cs =>
    (!prevWord && ciStartsWith w (c :: cs) &&
      (match (c :: cs).drop w.length with
       | [] => true
       | d :: _ => !isWChar d)) ||
    hasWordCIAux w (isWChar c) cs

def hasWordCI (w : Str) (s : Str) : Bool := hasWordCIAux w false s

/-- A milestone-table header: pipe-leading and containing both the words
`Date` and `Title` case-insensitively. -/
def isMsHeader (line : Str) : Bool :=
  pipeStart line && hasWordCI ("date".data) line && hasWordCI ("title".data) line

/-- One candidate milestone row: plain `split("|")`+trim (no boundary-cell
removal here), at least 4 cells, a valid ISO date in `cells[3]`. -/
def msRow (filePath : Str) (row : Str) : Option Milestone :=
  let cells := (splitOnChar '|' row).map jsTrim
  if cells.length < 4 then none
  else
    let date := cells.getD 3 []
    if isIsoDate date then
      some
        { id := cells.getD 1 []
          title := cells.getD 2 []
          date := date
          desc := cells.getD 4 []
          file := filePath }
    else none

/-- Rows of one milestone table: the pipe-leading lines immediately after
the header, each filtered through `msRow` (`continue` on short rows and
invalid dates, `break` at the first non-pipe line). -/
def msRowsAfterHeader (filePath : Str) (rows : List Str) : List Milestone :=
  (rows.takeWhile pipeStart).filterMap (msRow filePath)

/-- The full milestone scan of one document: every header line opens a
sub-scan of the lines following it. -/
def msScanDoc (filePath : Str) (fileLines : List Str) : List Milestone :=
  (fileLines.enum.map fun p =>
    if isMsHeader p.2 then msRowsAfterHeader filePath (fileLines.drop (p.1 + 1)) else []).flatten

example : msScanDoc ("m.md".data) (splitLines ("| Title | Date |\n| M1 | Launch | 2025-06-01 | First |".data)) =
    [{ id := "M1".data, title := "Launch".data, date := "2025-06-01".data,
       desc := "First".data, file := "m.md".data }] := by decide

/-! ### Document scan and reindex -/

/-- JavaScript string `<` (lexicographic by code unit; the dates compared
here are ASCII, where code units and scalar values agree). -/
def jsStrLt : Str → Str → Bool
  | [], [] => false
  | [], _ :: _ => true
  | _ :: _, [] => false
  | a :: as, b :: bs =>
    if a.toNat < b.toNat then true
    else if b.toNat < a.toNat then false
    else jsStrLt as bs

/-- The "flagged as project" predicate: the file has metadata with a
front-matter map and the flag key is truthy in it (`fmTruthyKeys` lists
the truthy keys). -/
def isProjectDoc (flag : Str) (doc : VaultDoc) : Bool :=
  match doc.fmTruthyKeys with
  | none => false
  | some ks => ks.contains flag

/-- Scan of one project document, mirroring the body of the `for (const
file of files)` loop: the structured-item walk, then the fallback
raw-line walk.  As in the source, the milestone collection loop is nested
inside the fallback walk's callback, after the task is pushed — it
therefore runs once per collected fallback row, not once per document. -/
def scanProjectDoc (cfg : PmSettingsM) (doc : VaultDoc) (st : CacheState) : CacheState :=
  let fileLines := splitLines doc.text
  let acc1 := doc.listItems.foldl
    (fun (acc : List TaskItem × CacheState) item =>
      match buildStructuredTask doc.path fileLines item with
      | none => acc
      | some t =>
        (acc.1 ++ [t],
         { acc.2 with tasks := alistSet acc.2.tasks (makeTaskKey doc.path t.id) t }))
    ([], st)
  let acc2 := fileLines.enum.foldl
    (fun (acc : List TaskItem × CacheState) p =>
      if !testTableTask fbGlyphs p.2 then acc
      else if acc.1.any fun t => t.line == p.1 then acc
      else
        let t := buildFallbackTask doc.path p.1 p.2
        let st1 := { acc.2 with tasks := alistSet acc.2.tasks (makeTaskKey doc.path t.id) t }
        let st2 := { st1 with milestones := st1.milestones ++ msScanDoc doc.path fileLines }
        (acc.1 ++ [t], st2))
    acc1
  let tasks := acc2.1
  let done := (tasks.filter fun t => t.checked).length
  let pct : ℚ := if tasks.length = 0 then 1 else (done : ℚ) / (tasks.length : ℚ)
  let nextDue := tasks.foldl
    (fun nd t =>
      match alistGet t.props cfg.dueProperty with
      | none => nd
      | some due =>
        if !due.isEmpty && !t.checked &&
            (match nd with
             | none => true
             | some nd0 => jsStrLt due nd0)
        then some due else nd)
    none
  { acc2.2 with
      projects := alistSet acc2.2.projects doc.path
        { filePath := doc.path, tasks := tasks, percentComplete := pct, nextDue := nextDue } }

/-- `reindex()`: clear the three collections, then scan every markdown
file whose front matter truthily carries the (defaulted) project-flag
key; finally `notify()` runs the listener callbacks, which leaves the
cache state itself untouched. -/
def reindex (cfg : PmSettingsM) (docs : List VaultDoc) (s : CacheState) : CacheState :=
  let cleared : CacheState :=
    { projects := [], tasks := [], milestones := [], listeners := s.listeners }
  let flag := if cfg.projectFlagProperty.isEmpty then "project".data else cfg.projectFlagProperty
  docs.foldl (fun st doc => if isProjectDoc flag doc then scanProjectDoc cfg doc st else st)
    cleared

/-- `getTask`: exact composite-key hit first, else the first entry (in map
insertion order) whose key ends with `::<lowercased id>`. -/
def getTask (s : CacheState) (taskId : Str) : Option TaskItem :=
  match alistGet s.tasks taskId with
  | some t => some t
  | none =>
    (s.tasks.find? fun kv => (':' :: ':' :: jsToLower taskId).isSuffixOf kv.1).map
      fun kv => kv.2

/-! ### Mutation gateway -/

/-- The `changes` argument of `updateTask`: the two specially-treated
fields plus the remaining property keys in object-insertion order. -/
structure Changes where
  checked : Option Bool := none
  text : Option Str := none
  props : List (Str × Str) := []

/-- `line.replace(/^\s*-\s*\[[ xX]\]/, "- [x]" | "- [ ]")`: the match
(including its leading whitespace) is replaced; lines whose first
non-whitespace character is not `-`, and glyphs other than space/x/X,
do not match and leave the line unchanged. -/
def replaceCheckbox (b : Bool) (line : Str) : Str :=
  match line.dropWhile isWs with
  | '-' :: r =>
    match r.dropWhile isWs with
    | '[' :: g :: ']' :: rest =>
      if g = ' ' || g = 'x' || g = 'X' then
        '-' :: ' ' :: '[' :: (if b then 'x' else ' ') :: ']' :: rest
      else line
    | _ => line
  | _ => line

/-- `line.replace(/\](.*?)(\^\w+)?$/, "] " + text + " " + task.id)`: the
match always runs from the first `]` to the end of the line (the lazy
group and the optional anchor are both inside the replaced span), so the
rewrite keeps everything before the first `]` and replaces the rest. -/
def replaceTextSeg (txt tid : Str) (line : Str) : Str :=
  let pre := line.takeWhile fun c => !(c = ']')
  if pre.length = line.length then line
  else pre ++ ']' :: ' ' :: (txt ++ ' ' :: tid)

/-- Scanner for `new RegExp(k + "::\\s*[^\\s]+")` (the keys used are
plain words, so the interpolation is a literal): the leftmost occurrence
of `k::` followed (after optional whitespace) by a nonempty non-whitespace
run.  Returns the text before the match and the text after it. -/
def findKvSpanAux (pat : Str) : Str → Option (Str × Str)
  | [] => none
  | c :: cs =>
    if pat.isPrefixOf (c :: cs) then
      let r := (c :: cs).drop pat.length
      let body := r.dropWhile isWs
      match body with
      | [] => (findKvSpanAux pat cs).map fun pq => (c :: pq.1, pq.2)
      | _ :: _ => some ([], body.dropWhile fun x => !isWs x)
    else (findKvSpanAux pat cs).map fun pq => (c :: pq.1, pq.2)

/-- One changed property merged into the attribute line: replace an
existing `k:: value` occurrence, else append `  k:: value`. -/
def setAttr (k v attrLine : Str) : Str :=
  match findKvSpanAux (k ++ ':' :: ':' :: []) attrLine with
  | some pq => pq.1 ++ (k ++ ':' :: ':' :: ' ' :: v) ++ pq.2
  | none => attrLine ++ ' ' :: ' ' :: (k ++ ':' :: ':' :: ' ' :: v)

/-- JavaScript array index assignment (`lines[i] = v`): in-range indices
are overwritten; `i = length` appends; sparse holes join as empty lines. -/
def setIdxExtend (lines : List Str) (i : Nat) (v : Str) : List Str :=
  if i < lines.length then lines.set i v
  else lines ++ List.replicate (i - lines.length) [] ++ [v]

/-- `updateTask(taskId, changes)`: exact-key lookup (no suffix fallback);
silently returns on a miss.  Otherwise the primary line is rewritten for
`checked`/`text` changes, every other changed key is rewritten into the
line after the primary line, the file is persisted and a full `reindex`
runs.  The interim in-place mutations of the found task object are
subsumed by that unconditional reindex.  Result: the state after the
call plus the persisted `(path, newText)` write, `none` when nothing was
looked up or the read failed (a read failure propagates to the caller and
leaves the index at its last reindexed state).  The host re-derives the
structured-item metadata from the new text outside this module; the
documents used in the theorems below carry none, so `docs2` keeps the
supplied metadata. -/
def updateTask (cfg : PmSettingsM) (docs : List VaultDoc) (s : CacheState)
    (taskId : Str) (ch : Changes) : CacheState × Option (Str × Str) :=
  match alistGet s.tasks taskId with
  | none => (s, none)
  | some task =>
    match docs.find? fun d => d.path == task.filePath with
    | none => (s, none)
    | some doc =>
      let lines := splitLines doc.text
      let line0 := lines.getD task.line []
      let line1 :=
        match ch.checked with
        | some b => replaceCheckbox b line0
        | none => line0
      let line2 :=
        match ch.text with
        | some t2 => replaceTextSeg t2 task.id line1
        | none => line1
      let lines1 :=
        if ch.props.isEmpty then lines
        else
          let attr0 := lines.getD (task.line + 1) []
          let attr1 := ch.props.foldl (fun a kv => setAttr kv.1 kv.2 a) attr0
          setIdxExtend lines (task.line + 1) attr1
      let lines2 := setIdxExtend lines1 task.line line2
      let newText := joinLines lines2
      let docs2 := docs.map fun d =>
        if d.path == task.filePath then { d with text := newText } else d
      (reindex cfg docs2 s, some (task.filePath, newText))

/-- `moveTaskToStatus`: set the configured status property key. -/
def moveTaskToStatus (cfg : PmSettingsM) (docs : List VaultDoc) (s : CacheState)
    (taskId status : Str) : CacheState × Option (Str × Str) :=
  updateTask cfg docs s taskId { props := [(cfg.statusProperty, status)] }

/-! ### Association-list lemmas -/

theorem alistGet_nil {α : Type} (k : Str) : alistGet ([] : List (Str × α)) k = none := rfl

theorem alistGet_cons {α : Type} (a : Str) (b : α) (tl : List (Str × α)) (k : Str) :
    alistGet ((a, b) :: tl) k = if a = k then some b else alistGet tl k := by
  by_cases h : a = k
  · rw [if_pos h]
    unfold alistGet
    rw [show List.find? (fun kv => kv.1 == k) ((a, b) :: tl) = some (a, b) from
      List.find?_cons_of_pos _ (by simpa using h)]
    rfl
  · rw [if_neg h]
    unfold alistGet
    rw [List.find?_cons_of_neg _ (by simpa using h)]

theorem alistGet_append {α : Type} (p q : List (Str × α)) (k : Str) :
    alistGet (p ++ q) k = (alistGet p k).or (alistGet q k) := by
  induction p with
  | nil => rw [List.nil_append, alistGet_nil, Option.none_or]
  | cons hd tl ih =>
    obtain ⟨a, b⟩ := hd
    by_cases h : a = k
    · rw [List.cons_append, alistGet_cons, alistGet_cons, if_pos h, if_pos h]
      rfl
    · rw [List.cons_append, alistGet_cons, alistGet_cons, if_neg h, if_neg h, ih]

theorem alistGet_eq_none_of_any_false {α : Type} (p : List (Str × α)) (k : Str)
    (h : (p.any fun kv => kv.1 == k) = false) : alistGet p k = none := by
  unfold alistGet
  rw [List.find?_eq_none.mpr]
  · rfl
  · exact List.any_eq_false.mp h

theorem alistGet_map_set_same {α : Type} (p : List (Str × α)) (k : Str) (v : α)
    (h : (p.any fun kv => kv.1 == k) = true) :
    alistGet (p.map fun kv => if kv.1 == k then (k, v) else kv) k = some v := by
  induction p with
  | nil => simp at h
  | cons hd tl ih =>
    obtain ⟨a, b⟩ := hd
    by_cases hh : a = k
    · have hmap : (if ((a, b).1 == k) = true then (k, v) else (a, b)) = (k, v) := by
        simp [hh]
      rw [List.map_cons, hmap, alistGet_cons, if_pos rfl]
    · have hmap : (if ((a, b).1 == k) = true then (k, v) else (a, b)) = (a, b) := by
        simp [hh]
      have h2 : (tl.any fun kv => kv.1 == k) = true := by
        rw [List.any_cons] at h
        rcases (Bool.or_eq_true _ _).mp h with h1 | h1
        · exact absurd (by simpa using h1) hh
        · exact h1
      rw [List.map_cons, hmap, alistGet_cons, if_neg hh]
      exact ih h2

theorem alistGet_map_set_other {α : Type} (p : List (Str × α)) (k : Str) (v : α)
    (k2 : Str) (hk : ¬k2 = k) :
    alistGet (p.map fun kv => if kv.1 == k then (k, v) else kv) k2 = alistGet p k2 := by
  have hkk : ¬k = k2 := fun hcon => hk hcon.symm
  induction p with
  | nil => rw [List.map_nil]
  | cons hd tl ih =>
    obtain ⟨a, b⟩ := hd
    by_cases hh : a = k
    · have hmap : (if ((a, b).1 == k) = true then (k, v) else (a, b)) = (k, v) := by
        simp [hh]
      have hne2 : ¬a = k2 := by
        rw [hh]
        exact hkk
      rw [List.map_cons, hmap, alistGet_cons, alistGet_cons, if_neg hkk, if_neg hne2, ih]
    · have hmap : (if ((a, b).1 == k) = true then (k, v) else (a, b)) = (a, b) := by
        simp [hh]
      by_cases h2 : a = k2
      · rw [List.map_cons, hmap, alistGet_cons, alistGet_cons, if_pos h2, if_pos h2]
      · rw [List.map_cons, hmap, alistGet_cons, alistGet_cons, if_neg h2, if_neg h2, ih]

/-- JavaScript property/`Map` update as observed through lookup. -/
theorem alistGet_set {α : Type} (p : List (Str × α)) (k : Str) (v : α) (k2 : Str) :
    alistGet (alistSet p k v) k2 = if k2 = k then some v else alistGet p k2 := by
  unfold alistSet
  cases hany : (p.any fun kv => kv.1 == k) with
  | true =>
    simp only [hany, if_true]
    by_cases hk : k2 = k
    · subst hk
      rw [if_pos rfl]
      exact alistGet_map_set_same p k2 v hany
    · rw [if_neg hk]
      exact alistGet_map_set_other p k v k2 hk
  | false =>
    simp only [hany, Bool.false_eq_true, if_false]
    rw [alistGet_append]
    by_cases hk : k2 = k
    · subst hk
      rw [alistGet_eq_none_of_any_false p k2 hany, if_pos rfl, Option.none_or,
        alistGet_cons, if_pos rfl]
    · have hkk : ¬k = k2 := fun hcon => hk hcon.symm
      rw [if_neg hk,
        show alistGet [(k, v)] k2 = none by rw [alistGet_cons, if_neg hkk, alistGet_nil],
        Option.or_none]

theorem alistGet_set_same {α : Type} (p : List (Str × α)) (k : Str) (v : α) :
    alistGet (alistSet p k v) k = some v := by
  rw [alistGet_set, if_pos rfl]

theorem alistGet_set_other {α : Type} (p : List (Str × α)) (k : Str) (v : α)
    (k2 : Str) (hk : ¬k2 = k) : alistGet (alistSet p k v) k2 = alistGet p k2 := by
  rw [alistGet_set, if_neg hk]

/-! ### Split/join and character lemmas -/

theorem splitOnChar_ne_nil (sep : Char) (s : Str) : splitOnChar sep s ≠ [] := by
  cases s with
  | nil => simp [splitOnChar]
  | cons c cs =>
    unfold splitOnChar
    by_cases h : c = sep
    · simp [h]
    · simp only [h, if_false]
      cases hr : splitOnChar sep cs <;> simp

theorem joinLines_splitLines (s : Str) : joinLines (splitLines s) = s := by
  unfold splitLines
  induction s with
  | nil => rfl
  | cons c cs ih =>
    show joinLines
      (let r := splitOnChar '\n' cs
       if c = '\n' then [] :: r
       else
         match r with
         | h :: t => (c :: h) :: t
         | [] => [[c]]) = c :: cs
    by_cases h : c = '\n'
    · subst h
      rw [if_pos rfl]
      cases hr : splitOnChar '\n' cs with
      | nil => exact absurd hr (splitOnChar_ne_nil _ _)
      | cons h0 t0 =>
        show joinLines ([] :: h0 :: t0) = '\n' :: cs
        show [] ++ '\n' :: joinLines (h0 :: t0) = '\n' :: cs
        rw [List.nil_append, ← hr, ih]
    · rw [if_neg h]
      cases hr : splitOnChar '\n' cs with
      | nil => exact absurd hr (splitOnChar_ne_nil _ _)
      | cons h0 t0 =>
        have hcs : joinLines (h0 :: t0) = cs := by rw [← hr, ih]
        cases t0 with
        | nil =>
          show (c :: h0 : Str) = c :: cs
          have : (h0 : Str) = cs := hcs
          rw [this]
        | cons x xs =>
          show (c :: h0) ++ '\n' :: joinLines (x :: xs) = c :: cs
          rw [← hcs]
          rfl

theorem set_getD_self {α : Type} (l : List α) (i : Nat) (d : α) (h : i < l.length) :
    l.set i (l.getD i d) = l := by
  induction l generalizing i with
  | nil => simp at h
  | cons a t ih =>
    cases i with
    | zero => simp [List.getD]
    | succ n =>
      simp only [List.length_cons] at h
      simp only [List.set_cons_succ, List.getD_cons_succ]
      rw [ih n (by omega)]

/-- The value of `Char.toLower` at the scalar level. -/
theorem toLower_toNat (c : Char) :
    (Char.toLower c).toNat =
      if 65 ≤ c.toNat ∧ c.toNat ≤ 90 then c.toNat + 32 else c.toNat := by
  show (if c.toNat ≥ 65 ∧ c.toNat ≤ 90 then Char.ofNat (c.toNat + 32) else c).toNat =
    if 65 ≤ c.toNat ∧ c.toNat ≤ 90 then c.toNat + 32 else c.toNat
  by_cases h : 65 ≤ c.toNat ∧ c.toNat ≤ 90
  · rw [if_pos ⟨h.1, h.2⟩, if_pos h]
    have hv : (c.toNat + 32).isValidChar := by
      left
      change c.toNat + 32 < 55296
      omega
    unfold Char.ofNat
    rw [dif_pos hv]
    exact BitVec.toNat_ofNatLt _ _
  · rw [if_neg (fun hc => h ⟨hc.1, hc.2⟩), if_neg h]

/-- Contains an ASCII uppercase letter (scalar values 65–90). -/
def hasUpper (s : Str) : Bool := s.any fun c => 65 ≤ c.toNat && c.toNat ≤ 90

theorem jsToLower_no_upper (s : Str) : hasUpper (jsToLower s) = false := by
  unfold hasUpper jsToLower
  rw [List.any_map, List.any_eq_false]
  intro c _
  show ¬(65 ≤ (Char.toLower c).toNat && (Char.toLower c).toNat ≤ 90) = true
  rw [toLower_toNat c]
  by_cases h : 65 ≤ c.toNat ∧ c.toNat ≤ 90
  · rw [if_pos h]
    simp
    omega
  · rw [if_neg h]
    simp
    omega

theorem boxAfterDash_of_no_bracket (allowed : List Char) (cs : Str) (h : ¬('[' ∈ cs)) :
    boxAfterDash allowed cs = false := by
  unfold boxAfterDash
  cases hd : cs.dropWhile isWs with
  | nil => rfl
  | cons d ds =>
    have hmem : d ∈ cs := by
      have hsub := List.dropWhile_sublist (l := cs) (p := isWs)
      rw [hd] at hsub
      exact hsub.subset (List.mem_cons_self d ds)
    by_cases hb : d = '['
    · exact absurd (hb ▸ hmem) h
    · split
      · rename_i g tail heq
        injection heq with h1 _
        exact absurd h1 hb
      · rfl

theorem hasDashBox_of_no_bracket (allowed : List Char) (t : Str) (h : ¬('[' ∈ t)) :
    hasDashBox allowed t = false := by
  induction t with
  | nil => rfl
  | cons c cs ih =>
    have h1 : ¬('[' ∈ cs) := fun hm => h (List.mem_cons_of_mem _ hm)
    unfold hasDashBox
    rw [boxAfterDash_of_no_bracket allowed cs h1, ih h1]
    simp

theorem replaceCheckbox_of_pipeStart (b : Bool) (line : Str) (h : pipeStart line = true) :
    replaceCheckbox b line = line := by
  unfold pipeStart at h
  split at h
  · rename_i rest heq
    unfold replaceCheckbox
    rw [heq]
    rfl
  · exact absurd h (by simp)

/-! ### Listener preservation and reindex determinism -/

theorem scanProjectDoc_listeners (cfg : PmSettingsM) (doc : VaultDoc) (st : CacheState) :
    (scanProjectDoc cfg doc st).listeners = st.listeners := by
  unfold scanProjectDoc
  have hfold2 : ∀ (f : (List TaskItem × CacheState) → ListItemIn →
      (List TaskItem × CacheState)),
      (∀ acc x, ((f acc x).2).listeners = acc.2.listeners) →
      ∀ (l : List ListItemIn) (acc : List TaskItem × CacheState),
        ((l.foldl f acc).2).listeners = acc.2.listeners := by
    intro f hf l
    induction l with
    | nil => intro acc; rfl
    | cons x xs ih =>
      intro acc
      rw [List.foldl_cons, ih (f acc x), hf acc x]
  have hfold : ∀ (f : (List TaskItem × CacheState) → (Nat × Str) →
      (List TaskItem × CacheState)),
      (∀ acc x, ((f acc x).2).listeners = acc.2.listeners) →
      ∀ (l : List (Nat × Str)) (acc : List TaskItem × CacheState),
        ((l.foldl f acc).2).listeners = acc.2.listeners := by
    intro f hf l
    induction l with
    | nil => intro acc; rfl
    | cons x xs ih =>
      intro acc
      rw [List.foldl_cons, ih (f acc x), hf acc x]
  rw [hfold _ ?hstep2 _ _, hfold2 _ ?hstep1 _ _]
  case hstep1 =>
    intro acc item
    cases buildStructuredTask doc.path (splitLines doc.text) item <;> rfl
  case hstep2 =>
    intro acc x
    by_cases h1 : testTableTask fbGlyphs x.2
    · by_cases h2 : acc.1.any fun t => t.line == x.1
      · simp only [h1, h2]
        rfl
      · simp only [h1, h2]
        rfl
    · simp only [h1]
      rfl

theorem reindex_listeners (cfg : PmSettingsM) (docs : List VaultDoc) (s : CacheState) :
    (reindex cfg docs s).listeners = s.listeners := by
  unfold reindex
  have hfold : ∀ (l : List VaultDoc) (st : CacheState),
      (l.foldl (fun st doc =>
        if isProjectDoc (if cfg.projectFlagProperty.isEmpty then "project".data
          else cfg.projectFlagProperty) doc
        then scanProjectDoc cfg doc st else st) st).listeners = st.listeners := by
    intro l
    induction l with
    | nil => intro st; rfl
    | cons d ds ih =>
      intro st
      rw [List.foldl_cons, ih]
      cases h : isProjectDoc (if cfg.projectFlagProperty.isEmpty then "project".data
          else cfg.projectFlagProperty) d with
      | true => simp [h, scanProjectDoc_listeners]
      | false => simp [h]
  exact hfold docs _

/-- `reindex` reads nothing of the previous collections: it starts from the
cleared state, whose only surviving component is the listener set. -/
theorem reindex_eq_of_listeners (cfg : PmSettingsM) (docs : List VaultDoc)
    (s1 s2 : CacheState) (h : s1.listeners = s2.listeners) :
    reindex cfg docs s1 = reindex cfg docs s2 := by
  unfold reindex
  rw [h]

/-! ### The emoji fold and the heuristics stages, as observed through lookup -/

/-- The date of the last 📅 match in a match list. -/
def lastCalDate (ms : List (Char × Str)) : Option Str :=
  (ms.reverse.find? fun m => m.1 == '📅').map fun m => m.2

theorem emojiApply_due_other (p : Props) (ic : Char) (d : Str) (hic : ¬ic = '📅') :
    alistGet (emojiApply p (ic, d)) ("due".data) = alistGet p ("due".data) := by
  by_cases h1 : ic = '🔜'
  · subst h1
    show alistGet (alistSet p ("start".data) (jsTrim d)) ("due".data) = alistGet p ("due".data)
    exact alistGet_set_other _ _ _ _ (by decide)
  by_cases h2 : ic = '⏳'
  · subst h2
    show alistGet (alistSet p ("start".data) (jsTrim d)) ("due".data) = alistGet p ("due".data)
    exact alistGet_set_other _ _ _ _ (by decide)
  by_cases h3 : ic = '🛫'
  · subst h3
    show alistGet (alistSet p ("start".data) (jsTrim d)) ("due".data) = alistGet p ("due".data)
    exact alistGet_set_other _ _ _ _ (by decide)
  by_cases h4 : ic = '✅'
  · subst h4
    show alistGet (alistSet p ("done".data) (jsTrim d)) ("due".data) = alistGet p ("due".data)
    exact alistGet_set_other _ _ _ _ (by decide)
  · unfold emojiApply
    rw [if_neg (by simp [h1, h2, h3]), if_neg (by simpa using hic), if_neg (by simpa using h4)]

theorem emojiFold_due (ms : List (Char × Str)) (p : Props) :
    alistGet (ms.foldl emojiApply p) ("due".data) =
      (lastCalDate ms).elim (alistGet p ("due".data)) (fun d => some (jsTrim d)) := by
  induction ms generalizing p with
  | nil => rfl
  | cons m rest ih =>
    obtain ⟨ic, d⟩ := m
    rw [List.foldl_cons, ih]
    have hsplit : lastCalDate ((ic, d) :: rest) =
        ((rest.reverse.find? fun m => m.1 == '📅').or
          (List.find? (fun m => m.1 == '📅') [(ic, d)])).map fun m => m.2 := by
      unfold lastCalDate
      rw [List.reverse_cons, List.find?_append]
    rw [hsplit]
    cases hrest : (rest.reverse.find? fun m => m.1 == '📅') with
    | some x =>
      have hlast : lastCalDate rest = some x.2 := by
        unfold lastCalDate
        rw [hrest]
        rfl
      rw [hlast]
      rfl
    | none =>
      have hlast : lastCalDate rest = none := by
        unfold lastCalDate
        rw [hrest]
        rfl
      rw [hlast]
      by_cases hic : ic = '📅'
      · subst hic
        rw [show List.find? (fun m => m.1 == '📅') [('📅', d)] = some ('📅', d) from
          List.find?_cons_of_pos _ (by simp)]
        show alistGet (emojiApply p ('📅', d)) ("due".data) = some (jsTrim d)
        show alistGet (alistSet p ("due".data) (jsTrim d)) ("due".data) = some (jsTrim d)
        exact alistGet_set_same _ _ _
      · rw [List.find?_cons_of_neg _ (by simpa using hic)]
        exact emojiApply_due_other p ic d hic

theorem emojiApply_get_other_key (p : Props) (ic : Char) (d : Str) (k : Str)
    (h1 : ¬k = "start".data) (h2 : ¬k = "due".data) (h3 : ¬k = "done".data) :
    alistGet (emojiApply p (ic, d)) k = alistGet p k := by
  by_cases hA : ic = '🔜'
  · subst hA
    show alistGet (alistSet p ("start".data) (jsTrim d)) k = alistGet p k
    exact alistGet_set_other _ _ _ _ h1
  by_cases hB : ic = '⏳'
  · subst hB
    show alistGet (alistSet p ("start".data) (jsTrim d)) k = alistGet p k
    exact alistGet_set_other _ _ _ _ h1
  by_cases hC : ic = '🛫'
  · subst hC
    show alistGet (alistSet p ("start".data) (jsTrim d)) k = alistGet p k
    exact alistGet_set_other _ _ _ _ h1
  by_cases hD : ic = '📅'
  · subst hD
    show alistGet (alistSet p ("due".data) (jsTrim d)) k = alistGet p k
    exact alistGet_set_other _ _ _ _ h2
  by_cases hE : ic = '✅'
  · subst hE
    show alistGet (alistSet p ("done".data) (jsTrim d)) k = alistGet p k
    exact alistGet_set_other _ _ _ _ h3
  · unfold emojiApply
    rw [if_neg (by simp [hA, hB, hC]), if_neg (by simpa using hD),
      if_neg (by simpa using hE)]

/-- The emoji-date pass only ever writes `start`, `due` and `done`: every
other key reads through it unchanged. -/
theorem emojiFold_get_other_key (ms : List (Char × Str)) (p : Props) (k : Str)
    (h1 : ¬k = "start".data) (h2 : ¬k = "due".data) (h3 : ¬k = "done".data) :
    alistGet (ms.foldl emojiApply p) k = alistGet p k := by
  induction ms generalizing p with
  | nil => rfl
  | cons m rest ih =>
    obtain ⟨ic, d⟩ := m
    rw [List.foldl_cons, ih (emojiApply p (ic, d)),
      emojiApply_get_other_key p ic d k h1 h2 h3]

theorem heurEpic_get_other (cells : List Str) (p : Props) (k : Str)
    (hk : ¬k = "epic".data) : alistGet (heurEpic cells p) k = alistGet p k := by
  unfold heurEpic
  cases cells.get? 1 with
  | none => rfl
  | some c1 =>
    by_cases h : (!c1.isEmpty && matchEpicRef (jsTrim c1)) = true
    · simp only [h, if_true]
      exact alistGet_set_other _ _ _ _ hk
    · simp only [h, Bool.false_eq_true, if_false]

theorem heurStory_get_other (cells : List Str) (p : Props) (k : Str)
    (hk : ¬k = "story".data) : alistGet (heurStory cells p) k = alistGet p k := by
  unfold heurStory
  cases cells.get? 1 with
  | none => rfl
  | some c1 =>
    by_cases h : (!c1.isEmpty && matchStoryRef (jsTrim c1)) = true
    · simp only [h, if_true]
      exact alistGet_set_other _ _ _ _ hk
    · simp only [h, Bool.false_eq_true, if_false]

theorem heurPriority_get_other (cells : List Str) (p : Props) (k : Str)
    (hk : ¬k = "priority".data) : alistGet (heurPriority cells p) k = alistGet p k := by
  unfold heurPriority
  cases cells.find? (fun c => priorityVocab.contains (jsTrim (jsToLower c))) with
  | none => rfl
  | some c => exact alistGet_set_other _ _ _ _ hk

theorem heurDescription_get_other (cells : List Str) (p : Props) (k : Str)
    (hk : ¬k = "description".data) :
    alistGet (heurDescription cells p) k = alistGet p k := by
  unfold heurDescription
  cases (cells.drop 2).reverse.find? (fun c => !c.isEmpty && !isIsoDate c) with
  | none => rfl
  | some cand => exact alistGet_set_other _ _ _ _ hk

theorem heurDescription_of_no_candidate (cells : List Str) (p : Props)
    (h : ∀ c ∈ (cells.drop 2), c = [] ∨ isIsoDate c = true) :
    heurDescription cells p = p := by
  unfold heurDescription
  rw [List.find?_eq_none.mpr]
  intro c hc
  rcases h c (List.mem_reverse.mp hc) with h1 | h1
  · simp [h1]
  · simp [h1]

/-! ### Concrete scenario inputs -/

/-- Default settings (`project` / `status` / `due`). -/
def cfg0 : PmSettingsM :=
  { projectFlagProperty := "project".data, statusProperty := "status".data,
    dueProperty := "due".data }

/-- A cache state with nothing indexed and no listeners. -/
def emptyState : CacheState :=
  { projects := [], tasks := [], milestones := [], listeners := [] }

/-- A project note whose only table is a milestone table (no task rows,
no structured list items). -/
def msOnlyDoc : VaultDoc :=
  { path := "m.md".data,
    text := ("| Title | Date |\n| M1 | Launch | 2025-06-01 | First |").data,
    fmTruthyKeys := some ["project".data], listItems := [] }

/-- A project note with one milestone table followed by two fallback
table-task rows. -/
def msDupDoc : VaultDoc :=
  { path := "m2.md".data,
    text := ("| Title | Date |\n| M1 | Launch | 2025-06-01 | First |\n| t1 | - [ ] A |\n| t2 | - [ ] B |").data,
    fmTruthyKeys := some ["project".data], listItems := [] }

/-- The spec's round-trip document, with the structured-item metadata the
host derives for it: one checkbox list item spanning lines 0–2, no block
id, no attributes (the typed `ListItemCache` has none). -/
def rtDoc : VaultDoc :=
  { path := "proj.md".data,
    text := ("- [ ] E-1 Build API\n  due:: 2025-08-01\n  assignee:: Ann").data,
    fmTruthyKeys := some ["project".data],
    listItems := [{ startLine := 0, endLine := some 2, task := some (" ".data),
                    blockId := none, attributes := [] }] }

/-- A fallback table-task row carrying an explicit `description::`
annotation next to a free-text cell. -/
def c2doc : VaultDoc :=
  { path := "c2.md".data,
    text := ("| t-1 | foo | - [ ] Build | description:: Official | Extra notes |").data,
    fmTruthyKeys := some ["project".data], listItems := [] }

/-- A structured checkbox item whose host-supplied block id is uppercase. -/
def c4doc : VaultDoc :=
  { path := "p.md".data,
    text := ("- [ ] Build ^E-1").data,
    fmTruthyKeys := some ["project".data],
    listItems := [{ startLine := 0, endLine := some 0, task := some (" ".data),
                    blockId := some ("E-1".data), attributes := [] }] }

/-- A one-row project note with a fallback table task keyed `t1`. -/
def c5doc : VaultDoc :=
  { path := "doc.md".data,
    text := ("| t1 | q | - [ ] Build | stuff |").data,
    fmTruthyKeys := some ["project".data], listItems := [] }

def c5Key : Str := "doc.md::t1".data

/-- The state and write effect after `updateTask(c5Key, {due: "2025-03-03"})`
on the freshly indexed `c5doc`. -/
def c5After : CacheState × Option (Str × Str) :=
  updateTask cfg0 [c5doc] (reindex cfg0 [c5doc] emptyState) c5Key
    { props := [("due".data, "2025-03-03".data)] }

/-- A fallback table-task row containing both a `due::` annotation and a
📅 emoji date. -/
def c6doc : VaultDoc :=
  { path := "c6.md".data,
    text := ("| t1 | q | - [ ] Build | due:: 2025-01-01 | 📅 2025-02-02 |").data,
    fmTruthyKeys := some ["project".data], listItems := [] }

/-! ### Claim theorems -/

/-- C1 (code_bug): the claim says the milestone scan runs independently of
the task rows, each qualifying pipe row yielding exactly one Milestone per
`reindex()` regardless of fallback table-task rows.  The source nests the
milestone collection loop inside the fallback row walk's callback, so a
project document whose only table is a milestone table yields no
milestones at all (though its scan would find exactly one qualifying row),
and a document with two fallback task rows collects every milestone
twice. -/
theorem claim1_milestone_scan_depends_on_fallback_rows :
    (reindex cfg0 [msOnlyDoc] emptyState).milestones = [] ∧
    msScanDoc msOnlyDoc.path (splitLines msOnlyDoc.text) =
      [{ id := "M1".data, title := "Launch".data, date := "2025-06-01".data,
         desc := "First".data, file := "m.md".data }] ∧
    (reindex cfg0 [msDupDoc] emptyState).milestones.length = 2 := by
  decide

/-- C3 (code_bug): for the spec's round-trip document
`- [ ] E-1 Build API` + `due::`/`assignee::` continuation lines, the code
yields no task reachable as `E-1` (neither by bare-id suffix nor by the
composite key): the inline `key::` pass reads only the block's first line,
so the assembled task has empty properties, and its id is the synthetic
`proj.md-0`, not `E-1`. -/
theorem claim3_round_trip_fails :
    getTask (reindex cfg0 [rtDoc] emptyState) ("E-1".data) = none ∧
    alistGet (reindex cfg0 [rtDoc] emptyState).tasks
      (makeTaskKey rtDoc.path ("E-1".data)) = none ∧
    ((reindex cfg0 [rtDoc] emptyState).tasks.map fun kv => kv.1) =
      [("proj.md::proj.md-0").data] ∧
    ((reindex cfg0 [rtDoc] emptyState).tasks.map fun kv => kv.2.id) =
      [("proj.md-0").data] ∧
    ((reindex cfg0 [rtDoc] emptyState).tasks.map fun kv => kv.2.props) =
      [([] : Props)] ∧
    ((reindex cfg0 [rtDoc] emptyState).tasks.map fun kv => kv.2.status) =
      [Status.notStarted] ∧
    ((reindex cfg0 [rtDoc] emptyState).tasks.map fun kv => kv.2.checked) =
      [false] := by
  decide

/-- C5 (code_bug): `updateTask(key, {due: "2025-03-03"})` persists the new
annotation on the line after the task's primary line (shown by the write
effect), but the reindex it triggers parses inline properties only from
the primary line, so the looked-up task afterwards has no `due` property
at all. -/
theorem claim5_updated_due_lost_after_reindex :
    c5After.2 = some ("doc.md".data,
      ("| t1 | q | - [ ] Build | stuff |\n  due:: 2025-03-03").data) ∧
    ((getTask c5After.1 c5Key).map fun t => alistGet t.props ("due".data)) =
      some none := by
  decide

/-- C2 counterexample: on the row
`| t-1 | foo | - [ ] Build | description:: Official | Extra notes |`
the `key::` pass does capture `description` = `Official`, yet the
assembled task's description is the heuristic cell `Extra notes` — the
right-to-left positional heuristic overwrote the explicit annotation. -/
theorem claim2_cex_description_annotation_overwritten :
    alistGet (applyKvMatches [] (kvScan c2doc.text)) ("description".data) =
      some ("Official".data) ∧
    ((reindex cfg0 [c2doc] emptyState).tasks.map fun kv =>
      alistGet kv.2.props ("description".data)) = [some ("Extra notes".data)] ∧
    ¬(("Extra notes".data : Str) = "Official".data) := by
  decide

/-- C4 counterexample: a structured item with host block id `E-1` is
stored with id `E-1` verbatim — not lowercased (only the composite lookup
key is lowercased). -/
theorem claim4_cex_structured_id_not_lowercased :
    ((reindex cfg0 [c4doc] emptyState).tasks.map fun kv => kv.1) =
      [("p.md::e-1").data] ∧
    ((reindex cfg0 [c4doc] emptyState).tasks.map fun kv => kv.2.id) =
      [("E-1").data] ∧
    ¬(jsToLower ("E-1".data) = "E-1".data) := by
  decide

/-- C6 counterexample: a fallback table-task row containing both
`due:: 2025-01-01` and `📅 2025-02-02` resolves `due` to `2025-01-01`:
the fallback walk has no emoji-date pass, so the emoji token does not
overwrite the annotation there. -/
theorem claim6_cex_emoji_ignored_on_fallback_path :
    emojiScan c6doc.text = [('📅', "2025-02-02".data)] ∧
    ((reindex cfg0 [c6doc] emptyState).tasks.map fun kv =>
      alistGet kv.2.props ("due".data)) = [some ("2025-01-01".data)] ∧
    ¬(("2025-01-01".data : Str) = "2025-02-02".data) := by
  decide

/-- A checklist line `- [<g>] <t>` differing from its siblings only in the
checkbox glyph. -/
def mkGlyphLine (g : Char) (t : Str) : Str :=
  '-' :: ' ' :: '[' :: g :: ']' :: ' ' :: t

/-- C7 (confirmed): for otherwise-identical task lines differing only in
the checkbox glyph, the status derivation used by both walks maps
`[ ]`/`[/]`/`[-]`/`[x]` (and `[X]`) to not-started / in-progress /
on-hold / done respectively, and `isChecked` is true only for `[x]`/`[X]`
(the trailing text must not contain `[`, otherwise it could itself spell
a checkbox). -/
theorem claim7_checkbox_glyph_status_mapping (t : Str) (h : ¬('[' ∈ t)) :
    (statusFromLine (mkGlyphLine ' ' t) = .notStarted ∧
      checkedFromLine (mkGlyphLine ' ' t) = false) ∧
    (statusFromLine (mkGlyphLine '/' t) = .inProgress ∧
      checkedFromLine (mkGlyphLine '/' t) = false) ∧
    (statusFromLine (mkGlyphLine '-' t) = .onHold ∧
      checkedFromLine (mkGlyphLine '-' t) = false) ∧
    (statusFromLine (mkGlyphLine 'x' t) = .done ∧
      checkedFromLine (mkGlyphLine 'x' t) = true) ∧
    (statusFromLine (mkGlyphLine 'X' t) = .done ∧
      checkedFromLine (mkGlyphLine 'X' t) = true) := by
  have ht : ∀ allowed, hasDashBox allowed t = false := fun a =>
    hasDashBox_of_no_bracket a t h
  refine ⟨⟨?_, ?_⟩, ⟨?_, ?_⟩, ⟨?_, ?_⟩, ⟨?_, ?_⟩, ⟨?_, ?_⟩⟩ <;>
    simp [statusFromLine, checkedFromLine, mkGlyphLine, hasDashBox, boxAfterDash,
      isWs, List.dropWhile, ht]

/-- C7 witness at the concrete trailing text `Build API`. -/
theorem claim7_witness :
    statusFromLine (mkGlyphLine '/' ("Build API".data)) = .inProgress ∧
    checkedFromLine (mkGlyphLine 'x' ("Build API".data)) = true :=
  ⟨(claim7_checkbox_glyph_status_mapping ("Build API".data) (by decide)).2.1.1,
   (claim7_checkbox_glyph_status_mapping ("Build API".data) (by decide)).2.2.2.1.2⟩

/-- C8 (confirmed): `reindex` twice in a row over the same documents yields
the identical projects, tasks and milestones collections (same entries in
the same order): the rebuild starts from the cleared state, so nothing of
the previous collections can leak in. -/
theorem claim8_reindex_idempotent (cfg : PmSettingsM) (docs : List VaultDoc)
    (s : CacheState) :
    (reindex cfg docs (reindex cfg docs s)).projects = (reindex cfg docs s).projects ∧
    (reindex cfg docs (reindex cfg docs s)).tasks = (reindex cfg docs s).tasks ∧
    (reindex cfg docs (reindex cfg docs s)).milestones =
      (reindex cfg docs s).milestones := by
  have h : reindex cfg docs (reindex cfg docs s) = reindex cfg docs s :=
    reindex_eq_of_listeners cfg docs _ s (reindex_listeners cfg docs s)
  rw [h]
  exact ⟨rfl, rfl, rfl⟩

/-- C8 witness at a concrete configuration, document list and state. -/
theorem claim8_witness :
    (reindex cfg0 [msOnlyDoc] (reindex cfg0 [msOnlyDoc] emptyState)).projects =
      (reindex cfg0 [msOnlyDoc] emptyState).projects ∧
    (reindex cfg0 [msOnlyDoc] (reindex cfg0 [msOnlyDoc] emptyState)).tasks =
      (reindex cfg0 [msOnlyDoc] emptyState).tasks ∧
    (reindex cfg0 [msOnlyDoc] (reindex cfg0 [msOnlyDoc] emptyState)).milestones =
      (reindex cfg0 [msOnlyDoc] emptyState).milestones :=
  claim8_reindex_idempotent cfg0 [msOnlyDoc] emptyState

/-- C9 (confirmed): `updateTask` with an id that misses the exact
composite-key lookup silently returns: no exception, no write effect, the
state untouched — for every absent id and every changes argument. -/
theorem claim9_updateTask_missing_id_noop (cfg : PmSettingsM) (docs : List VaultDoc)
    (s : CacheState) (taskId : Str) (ch : Changes)
    (h : alistGet s.tasks taskId = none) :
    updateTask cfg docs s taskId ch = (s, none) := by
  unfold updateTask
  rw [h]

/-- C9 witness: an id absent from a freshly built index. -/
theorem claim9_witness :
    updateTask cfg0 [c5doc] (reindex cfg0 [c5doc] emptyState)
      ("doc.md::nope".data) ⟨none, none, []⟩ =
      (reindex cfg0 [c5doc] emptyState, none) :=
  claim9_updateTask_missing_id_noop cfg0 [c5doc] _ _ _ (by decide)

/-- C10 (confirmed): for an indexed task whose primary line is a
pipe-table row, `updateTask` with only a checked-state change persists a
text identical to the old one: the checkbox-swap regex requires a `-` as
the first non-whitespace character, so a pipe-leading line never matches
and the rewrite is the identity on the whole document. -/
theorem claim10_checked_update_preserves_table_row (cfg : PmSettingsM)
    (docs : List VaultDoc) (s : CacheState) (key : Str) (t : TaskItem) (b : Bool)
    (doc : VaultDoc)
    (h1 : alistGet s.tasks key = some t)
    (h2 : (docs.find? fun d => d.path == t.filePath) = some doc)
    (h3 : pipeStart ((splitLines doc.text).getD t.line []) = true)
    (h4 : t.line < (splitLines doc.text).length) :
    (updateTask cfg docs s key { checked := some b }).2 =
      some (t.filePath, doc.text) := by
  unfold updateTask
  rw [h1]
  simp only []
  rw [h2]
  show some (t.filePath, joinLines (setIdxExtend (splitLines doc.text) t.line
    (replaceCheckbox b ((splitLines doc.text).getD t.line [])))) =
    some (t.filePath, doc.text)
  rw [replaceCheckbox_of_pipeStart b _ h3]
  unfold setIdxExtend
  rw [if_pos h4, set_getD_self _ _ _ h4, joinLines_splitLines]

/-- The task assembled from `c5doc`'s single row. -/
def c5Task : TaskItem :=
  { id := "t1".data, filePath := "doc.md".data, line := 0, text := "Build".data,
    props := [("description".data, "stuff".data)], checked := false,
    depends := [], status := .notStarted }

/-- C10 witness on the indexed `c5doc` row. -/
theorem claim10_witness :
    (updateTask cfg0 [c5doc] (reindex cfg0 [c5doc] emptyState) c5Key
      { checked := some true }).2 = some (c5Task.filePath, c5doc.text) :=
  claim10_checked_update_preserves_table_row cfg0 [c5doc]
    (reindex cfg0 [c5doc] emptyState) c5Key c5Task true c5doc
    (by decide) (by decide) (by decide) (by decide)

/-- C2 (amended): on both scan walks, the right-to-left cell heuristic
runs after the `key::` annotation pass and overwrites
`properties.description` whenever it finds a nonempty non-ISO-date cell
at index ≥ 2 (the rightmost such cell wins — conjuncts 2 and 4); an
explicit `description::` annotation survives only when no such cell
exists (conjuncts 1 and 3).  Conjuncts 1–2 cover the fallback row walk,
conjuncts 3–4 the structured-item walk (whose row cells come from the
block's first line). -/
theorem claim2_amended_annotation_wins_only_without_candidate :
    (∀ fp idx line, (∀ c ∈ (rowCells line).drop 2, c = [] ∨ isIsoDate c = true) →
      alistGet (buildFallbackTask fp idx line).props ("description".data) =
        alistGet (applyKvMatches [] (kvScan line)) ("description".data)) ∧
    (∀ fp idx line cand, line.contains '|' = true →
      ((rowCells line).drop 2).reverse.find? (fun c => !c.isEmpty && !isIsoDate c) =
        some cand →
      alistGet (buildFallbackTask fp idx line).props ("description".data) =
        some cand) ∧
    (∀ fp fileLines item t, buildStructuredTask fp fileLines item = some t →
      (∀ c ∈ (rowCells (fileLines.getD item.startLine [])).drop 2,
        c = [] ∨ isIsoDate c = true) →
      alistGet t.props ("description".data) =
        alistGet (applyKvMatches (attrProps item)
          (kvScan (fileLines.getD item.startLine []))) ("description".data)) ∧
    (∀ fp fileLines item t cand, buildStructuredTask fp fileLines item = some t →
      (fileLines.getD item.startLine []).contains '|' = true →
      ((rowCells (fileLines.getD item.startLine [])).drop 2).reverse.find?
        (fun c => !c.isEmpty && !isIsoDate c) = some cand →
      alistGet t.props ("description".data) = some cand) := by
  refine ⟨?_, ?_, ?_, ?_⟩
  · intro fp idx line h
    have hprops : (buildFallbackTask fp idx line).props =
        if line.contains '|' then
          applyCellHeuristics (rowCells line) (applyKvMatches [] (kvScan line))
        else applyKvMatches [] (kvScan line) := rfl
    rw [hprops]
    by_cases hp : line.contains '|'
    · rw [if_pos hp]
      unfold applyCellHeuristics
      rw [heurDescription_of_no_candidate _ _ h,
        heurPriority_get_other _ _ _ (by decide),
        heurStory_get_other _ _ _ (by decide),
        heurEpic_get_other _ _ _ (by decide)]
    · rw [if_neg hp]
  · intro fp idx line cand hp hf
    have hprops : (buildFallbackTask fp idx line).props =
        if line.contains '|' then
          applyCellHeuristics (rowCells line) (applyKvMatches [] (kvScan line))
        else applyKvMatches [] (kvScan line) := rfl
    rw [hprops, if_pos hp]
    unfold applyCellHeuristics heurDescription
    rw [hf]
    exact alistGet_set_same _ _ _
  · intro fp fileLines item t ht h
    unfold buildStructuredTask at ht
    simp only [] at ht
    split at ht
    · exact absurd ht (by simp)
    · injection ht with ht2
      subst ht2
      show alistGet ((emojiScan (normBlockOf fileLines item)).foldl emojiApply _)
        ("description".data) = _
      rw [emojiFold_get_other_key _ _ _ (by decide) (by decide) (by decide)]
      by_cases hp : (fileLines.getD item.startLine []).contains '|'
      · rw [if_pos hp]
        unfold applyCellHeuristics
        rw [heurDescription_of_no_candidate _ _ h,
          heurPriority_get_other _ _ _ (by decide),
          heurStory_get_other _ _ _ (by decide),
          heurEpic_get_other _ _ _ (by decide)]
      · rw [if_neg hp]
  · intro fp fileLines item t cand ht hp hf
    unfold buildStructuredTask at ht
    simp only [] at ht
    split at ht
    · exact absurd ht (by simp)
    · injection ht with ht2
      subst ht2
      show alistGet ((emojiScan (normBlockOf fileLines item)).foldl emojiApply _)
        ("description".data) = some cand
      rw [emojiFold_get_other_key _ _ _ (by decide) (by decide) (by decide)]
      unfold applyCellHeuristics heurDescription
      rw [hf]
      exact alistGet_set_same _ _ _

/-- A table row exposed to the structured walk (Obsidian leaves
`item.task` unset for table-embedded items; the row regex admits it)
whose rightmost non-date cell displaces the explicit annotation. -/
def c2sItem : ListItemIn :=
  { startLine := 0, endLine := some 0, task := none, blockId := none,
    attributes := [] }

/-- The task the structured walk assembles from
`| s1 | E-1 | - [ ] Design | description:: Official | Notes |`. -/
def c2sTask : TaskItem :=
  { id := "s2.md-0".data, filePath := "s2.md".data, line := 0,
    text := ("s1 | E-1 | - [ ] Design |  | Notes |").data,
    props := [("description".data, "Notes".data), ("epic".data, "E-1".data)],
    checked := false, depends := [], status := .notStarted }

/-- The task the structured walk assembles from
`| - [ ] t-1 description:: Keep | E-1 | 2025-01-01 |` (every cell at
index ≥ 2 is a date, so the annotation survives). -/
def c2sKeepTask : TaskItem :=
  { id := "s3.md-0".data, filePath := "s3.md".data, line := 0,
    text := ("t-1  | E-1 | 2025-01-01 |").data,
    props := [("description".data, "Keep".data), ("epic".data, "E-1".data)],
    checked := false, depends := [], status := .notStarted }

/-- C2 amended witness, exercising all four conjuncts: fallback survival
(annotation and checkbox in cell 0, later cells dates), fallback
overwrite (the `c2doc` row), structured survival and structured
overwrite (the same two row shapes exposed as structured items). -/
theorem claim2_amended_witness :
    alistGet (buildFallbackTask ("w.md".data) 0
        ("| - [ ] t-1 description:: Keep | E-1 | 2025-01-01 |".data)).props
      ("description".data) =
      alistGet (applyKvMatches []
        (kvScan ("| - [ ] t-1 description:: Keep | E-1 | 2025-01-01 |".data)))
      ("description".data) ∧
    alistGet (buildFallbackTask ("c2.md".data) 0 c2doc.text).props
      ("description".data) = some ("Extra notes".data) ∧
    alistGet c2sKeepTask.props ("description".data) =
      alistGet (applyKvMatches (attrProps c2sItem)
        (kvScan ((splitLines ("| - [ ] t-1 description:: Keep | E-1 | 2025-01-01 |".data)).getD
          c2sItem.startLine []))) ("description".data) ∧
    alistGet c2sTask.props ("description".data) = some ("Notes".data) :=
  ⟨claim2_amended_annotation_wins_only_without_candidate.1 ("w.md".data) 0 _
      (by decide),
   claim2_amended_annotation_wins_only_without_candidate.2.1 ("c2.md".data) 0 _
      ("Extra notes".data) (by decide) (by decide),
   claim2_amended_annotation_wins_only_without_candidate.2.2.1 ("s3.md".data)
      (splitLines ("| - [ ] t-1 description:: Keep | E-1 | 2025-01-01 |".data))
      c2sItem c2sKeepTask (by decide) (by decide),
   claim2_amended_annotation_wins_only_without_candidate.2.2.2 ("s2.md".data)
      (splitLines ("| s1 | E-1 | - [ ] Design | description:: Official | Notes |".data))
      c2sItem c2sTask ("Notes".data) (by decide) (by decide) (by decide)⟩

/-- C4 (amended): only the fallback row walk lowercases the final id (its
stored ids never contain an ASCII uppercase letter); the structured-item
walk stores the id verbatim on both branches of its `item.id ?? …`
assignment — the host-supplied block id (conjunct 2) as well as the
synthetic `path-line` fallback (conjunct 3, uppercase in the vault path
included) — lowercasing happens only in the composite lookup key. -/
theorem claim4_amended_lowercase_only_on_fallback_path :
    (∀ fp idx line, hasUpper (buildFallbackTask fp idx line).id = false) ∧
    (∀ fp fileLines item t bid, item.blockId = some bid →
      buildStructuredTask fp fileLines item = some t → t.id = bid) ∧
    (∀ fp fileLines item t, item.blockId = none →
      buildStructuredTask fp fileLines item = some t →
      t.id = fp ++ '-' :: natStr item.startLine) := by
  refine ⟨?_, ?_, ?_⟩
  · intro fp idx line
    exact jsToLower_no_upper _
  · intro fp fileLines item t bid hbid ht
    unfold buildStructuredTask at ht
    simp only [] at ht
    split at ht
    · exact absurd ht (by simp)
    · injection ht with ht2
      subst ht2
      show item.blockId.getD _ = bid
      rw [hbid]
      rfl
  · intro fp fileLines item t hbid ht
    unfold buildStructuredTask at ht
    simp only [] at ht
    split at ht
    · exact absurd ht (by simp)
    · injection ht with ht2
      subst ht2
      show item.blockId.getD _ = fp ++ '-' :: natStr item.startLine
      rw [hbid]
      rfl

/-- The task assembled from `c4doc`'s structured item. -/
def c4Task : TaskItem :=
  { id := "E-1".data, filePath := "p.md".data, line := 0,
    text := "Build ^E-1".data, props := [], checked := false,
    depends := [], status := .notStarted }

/-- A structured checkbox item with no block id in a vault file whose
path contains an uppercase letter. -/
def c4bItem : ListItemIn :=
  { startLine := 0, endLine := some 0, task := some (" ".data), blockId := none,
    attributes := [] }

/-- The task the structured walk assembles from `- [ ] Build It` in
`Case.md` with no block id: its synthetic id keeps the path verbatim. -/
def c4bTask : TaskItem :=
  { id := "Case.md-0".data, filePath := "Case.md".data, line := 0,
    text := "Build It".data, props := [], checked := false,
    depends := [], status := .notStarted }

/-- C4 amended witness: a concrete fallback row id has no uppercase; the
concrete structured item with block id `E-1` stores it verbatim; a
concrete structured item with no block id stores the synthetic
`Case.md-0` verbatim, uppercase path letter included. -/
theorem claim4_amended_witness :
    hasUpper (buildFallbackTask ("A.md".data) 0 ("| T-9 | - [ ] Build |".data)).id =
      false ∧
    c4Task.id = "E-1".data ∧
    c4bTask.id = "Case.md".data ++ '-' :: natStr 0 :=
  ⟨claim4_amended_lowercase_only_on_fallback_path.1 ("A.md".data) 0 _,
   claim4_amended_lowercase_only_on_fallback_path.2.1 ("p.md".data)
     (splitLines c4doc.text)
     { startLine := 0, endLine := some 0, task := some (" ".data),
       blockId := some ("E-1".data), attributes := [] }
     c4Task ("E-1".data) rfl (by decide),
   claim4_amended_lowercase_only_on_fallback_path.2.2 ("Case.md".data)
     (splitLines ("- [ ] Build It".data)) c4bItem c4bTask rfl (by decide)⟩

/-- C6 (amended): on the structured-item path the emoji-date pass runs
after the `key::` pass and overwrites `due` — the block's last 📅 date
wins regardless of any `due::` annotation; the fallback table-row walk
performs no emoji parsing at all, so there `due` is exactly what the
`key::` pass produced (the cell heuristics never touch it). -/
theorem claim6_amended_emoji_wins_only_on_structured_path :
    (∀ fp fileLines item t d, buildStructuredTask fp fileLines item = some t →
      lastCalDate (emojiScan (normBlockOf fileLines item)) = some d →
      alistGet t.props ("due".data) = some (jsTrim d)) ∧
    (∀ fp idx line, alistGet (buildFallbackTask fp idx line).props ("due".data) =
      alistGet (applyKvMatches [] (kvScan line)) ("due".data)) := by
  constructor
  · intro fp fileLines item t d ht hd
    unfold buildStructuredTask at ht
    simp only [] at ht
    split at ht
    · exact absurd ht (by simp)
    · injection ht with ht2
      subst ht2
      show alistGet ((emojiScan (normBlockOf fileLines item)).foldl emojiApply _)
        ("due".data) = some (jsTrim d)
      rw [emojiFold_due, hd]
      rfl
  · intro fp idx line
    have hprops : (buildFallbackTask fp idx line).props =
        if line.contains '|' then
          applyCellHeuristics (rowCells line) (applyKvMatches [] (kvScan line))
        else applyKvMatches [] (kvScan line) := rfl
    rw [hprops]
    by_cases hp : line.contains '|'
    · rw [if_pos hp]
      unfold applyCellHeuristics
      rw [heurDescription_get_other _ _ _ (by decide),
        heurPriority_get_other _ _ _ (by decide),
        heurStory_get_other _ _ _ (by decide),
        heurEpic_get_other _ _ _ (by decide)]
    · rw [if_neg hp]

def c6sText : Str := ("- [ ] T due:: 2025-01-01 📅 2025-02-02").data

def c6sItem : ListItemIn :=
  { startLine := 0, endLine := some 0, task := some (" ".data), blockId := none,
    attributes := [] }

/-- The task assembled from the structured block containing both a `due::`
annotation and a 📅 date. -/
def c6sTask : TaskItem :=
  { id := "c6s.md-0".data, filePath := "c6s.md".data, line := 0,
    text := ("T  📅 2025-02-02").data,
    props := [("due".data, "2025-02-02".data)], checked := false,
    depends := [], status := .notStarted }

/-- C6 amended witness: the structured block resolves `due` to the emoji
date; the fallback row keeps the annotation pass's value. -/
theorem claim6_amended_witness :
    alistGet c6sTask.props ("due".data) = some (jsTrim ("2025-02-02".data)) ∧
    alistGet (buildFallbackTask ("c6.md".data) 0 c6doc.text).props ("due".data) =
      alistGet (applyKvMatches [] (kvScan c6doc.text)) ("due".data) :=
  ⟨claim6_amended_emoji_wins_only_on_structured_path.1 ("c6s.md".data)
      (splitLines c6sText) c6sItem c6sTask ("2025-02-02".data) (by decide) (by decide),
   claim6_amended_emoji_wins_only_on_structured_path.2 ("c6.md".data) 0 c6doc.text⟩

end PMCache
